import Mathlib

/-!
# SnowDucks query-cache fingerprinting and freshness engine: a verification development

Shallow embedding of the SnowDucks caching core (`src/cli/snowducks/utils.py`,
`core.py`, `ducklake_manager.py`) in Lean 4, together with theorems settling the
specification claims about it.

Conventions of the embedding:
* Python `str` becomes Lean `String` / `List Char`; Python's ASCII whitespace
  set for `str.split` / `str.strip` is modelled by `pyWs`.
* `hashlib.sha256(...).hexdigest()` is modelled by a full executable SHA-256
  over the UTF-8 bytes of the input, with 32-bit words as `Nat` reduced
  modulo `2 ^ 32`.
* Timestamps are integers (seconds); `timedelta(hours = h)` is `h * 3600`.
* The DuckDB/Postgres metadata tables become lists of rows inside a
  `ManagerState`; SQL `DELETE ... WHERE` is `List.filter`, `INSERT` appends,
  `UPDATE` is `List.map`, `fetchone` is `List.find?`.
-/

/-! ## Python string primitives -/

/-- Python's ASCII whitespace set, as used by `str.split()` / `str.strip()`
(space, tab, newline, vertical tab, form feed, carriage return). -/
def pyWs (c : Char) : Bool :=
  c = ' ' || c = '\t' || c = '\n' || c = Char.ofNat 11 || c = Char.ofNat 12 || c = '\r'

/-- Drop leading characters satisfying `p` and trailing ones too. -/
def stripBy (p : Char → Bool) (l : List Char) : List Char :=
  ((l.dropWhile p).reverse.dropWhile p).reverse

/-- Python `str.strip()` on a character list. -/
def pyStrip (l : List Char) : List Char := stripBy pyWs l

/-- Python `str.rstrip(chars)` for a single strip character. -/
def pyRstripChar (ch : Char) (l : List Char) : List Char :=
  (l.reverse.dropWhile (fun c => c = ch)).reverse

/-- Fuel-driven worker for `pySplitChars`; the fuel is an upper bound on the
input length, so it never runs out. Structural recursion on the fuel keeps the
function kernel-reducible. -/
def pySplitGo : Nat → List Char → List (List Char)
  | 0, _ => []
  | _, [] => []
  | fuel + 1, c :: t =>
    if pyWs c then pySplitGo fuel t
    else (c :: t.takeWhile (fun d => !pyWs d)) :: pySplitGo fuel (t.dropWhile (fun d => !pyWs d))

/-- Python `str.split()` (split on whitespace runs, no empty tokens). -/
def pySplitChars (l : List Char) : List (List Char) := pySplitGo l.length l

/-- Join tokens with a single space (Python `" ".join(tokens)`). -/
def joinSpace : List (List Char) → List Char
  | [] => []
  | [t] => t
  | t :: rest => t ++ ' ' :: joinSpace rest

/-- Python `str.lower()` on a character list (ASCII case mapping). -/
def pyLower (l : List Char) : List Char := l.map Char.toLower

/-! ## SHA-256 (FIPS 180-4) over `Nat` words reduced mod `2 ^ 32` -/

/-- Truncate to a 32-bit word. -/
def w32 (n : Nat) : Nat := n % 4294967296

/-- Right rotation within 32 bits. -/
def rotr32 (x n : Nat) : Nat := w32 ((x >>> n) ||| (x <<< (32 - n)))

/-- Bitwise complement of a 32-bit word. -/
def not32 (x : Nat) : Nat := x ^^^ 4294967295

/-- SHA-256 function `Ch(x, y, z)`. -/
def shaCh (x y z : Nat) : Nat := (x &&& y) ^^^ (not32 x &&& z)

/-- SHA-256 function `Maj(x, y, z)`. -/
def shaMaj (x y z : Nat) : Nat := (x &&& y) ^^^ (x &&& z) ^^^ (y &&& z)

/-- SHA-256 function `Σ₀`. -/
def bsig0 (x : Nat) : Nat := rotr32 x 2 ^^^ rotr32 x 13 ^^^ rotr32 x 22

/-- SHA-256 function `Σ₁`. -/
def bsig1 (x : Nat) : Nat := rotr32 x 6 ^^^ rotr32 x 11 ^^^ rotr32 x 25

/-- SHA-256 function `σ₀`. -/
def ssig0 (x : Nat) : Nat := rotr32 x 7 ^^^ rotr32 x 18 ^^^ (x >>> 3)

/-- SHA-256 function `σ₁`. -/
def ssig1 (x : Nat) : Nat := rotr32 x 17 ^^^ rotr32 x 19 ^^^ (x >>> 10)

/-- The eight SHA-256 initial hash values (FIPS 180-4 §5.3.3, in decimal). -/
def shaH0 : List Nat :=
  [1779033703, 3144134277, 1013904242, 2773480762,
   1359893119, 2600822924, 528734635, 1541459225]

/-- The 64 SHA-256 round constants (FIPS 180-4 §4.2.2, in decimal). -/
def shaK : List Nat :=
  [1116352408, 1899447441, 3049323471, 3921009573, 961987163,
   1508970993, 2453635748, 2870763221, 3624381080, 310598401,
   607225278, 1426881987, 1925078388, 2162078206, 2614888103,
   3248222580, 3835390401, 4022224774, 264347078, 604807628,
   770255983, 1249150122, 1555081692, 1996064986, 2554220882,
   2821834349, 2952996808, 3210313671, 3336571891, 3584528711,
   113926993, 338241895, 666307205, 773529912, 1294757372,
   1396182291, 1695183700, 1986661051, 2177026350, 2456956037,
   2730485921, 2820302411, 3259730800, 3345764771, 3516065817,
   3600352804, 4094571909, 275423344, 430227734, 506948616,
   659060556, 883997877, 958139571, 1322822218, 1537002063,
   1747873779, 1955562222, 2024104815, 2227730452, 2361852424,
   2428436474, 2756734187, 3204031479, 3329325298]

/-- Big-endian 8-byte encoding of a 64-bit value. -/
def be64 (n : Nat) : List Nat :=
  [(n >>> 56) &&& 255, (n >>> 48) &&& 255, (n >>> 40) &&& 255, (n >>> 32) &&& 255,
   (n >>> 24) &&& 255, (n >>> 16) &&& 255, (n >>> 8) &&& 255, n &&& 255]

/-- SHA-256 message padding: `0x80`, zero bytes to 56 mod 64, 64-bit bit length. -/
def sha256Pad (msg : List Nat) : List Nat :=
  let len := msg.length
  let zeros := (120 - (len + 1) % 64) % 64
  msg ++ 128 :: List.replicate zeros 0 ++ be64 (len * 8)

/-- Fuel-driven worker for `chunks64` (structural recursion on the fuel, which
bounds the input length). -/
def chunksGo : Nat → List Nat → List (List Nat)
  | 0, _ => []
  | _, [] => []
  | fuel + 1, c :: t => (c :: t.take 63) :: chunksGo fuel (t.drop 63)

/-- Split a byte list into 64-byte blocks. -/
def chunks64 (l : List Nat) : List (List Nat) := chunksGo l.length l

/-- The first 16 big-endian 32-bit words of a 64-byte block. -/
def blockWords (b : List Nat) : List Nat :=
  (List.range 16).map fun i =>
    (b.getD (4 * i) 0) <<< 24 ||| (b.getD (4 * i + 1) 0) <<< 16 |||
      (b.getD (4 * i + 2) 0) <<< 8 ||| b.getD (4 * i + 3) 0

/-- Extend the 16-word schedule by `n` further words. -/
def extendW : Nat → List Nat → List Nat
  | 0, w => w
  | n + 1, w =>
    let m := w.length
    extendW n (w ++ [w32 (ssig1 (w.getD (m - 2) 0) + w.getD (m - 7) 0 +
      ssig0 (w.getD (m - 15) 0) + w.getD (m - 16) 0)])

/-- One round of the SHA-256 compression function. -/
def shaRound (st : Nat × Nat × Nat × Nat × Nat × Nat × Nat × Nat) (kw : Nat × Nat) :
    Nat × Nat × Nat × Nat × Nat × Nat × Nat × Nat :=
  let (a, b, c, d, e, f, g, h) := st
  let t1 := w32 (h + bsig1 e + shaCh e f g + kw.1 + kw.2)
  let t2 := w32 (bsig0 a + shaMaj a b c)
  (w32 (t1 + t2), a, b, c, w32 (d + t1), e, f, g)

/-- Compress one 64-byte block into the running 8-word state. -/
def sha256Compress (st : List Nat) (block : List Nat) : List Nat :=
  let w := extendW 48 (blockWords block)
  let init := (st.getD 0 0, st.getD 1 0, st.getD 2 0, st.getD 3 0,
               st.getD 4 0, st.getD 5 0, st.getD 6 0, st.getD 7 0)
  let (a, b, c, d, e, f, g, h) := (shaK.zip w).foldl shaRound init
  [w32 (st.getD 0 0 + a), w32 (st.getD 1 0 + b), w32 (st.getD 2 0 + c), w32 (st.getD 3 0 + d),
   w32 (st.getD 4 0 + e), w32 (st.getD 5 0 + f), w32 (st.getD 6 0 + g), w32 (st.getD 7 0 + h)]

/-- SHA-256 of a byte list, as the eight 32-bit words of the digest. -/
def sha256Words (msg : List Nat) : List Nat :=
  (chunks64 (sha256Pad msg)).foldl sha256Compress shaH0

/-- Lowercase hex digit for a value below 16. -/
def hexDigit (n : Nat) : Char :=
  if n < 10 then Char.ofNat (48 + n) else Char.ofNat (87 + n)

/-- Eight lowercase hex characters of a 32-bit word, most significant first. -/
def wordHex (x : Nat) : List Char :=
  [hexDigit ((x >>> 28) &&& 15), hexDigit ((x >>> 24) &&& 15), hexDigit ((x >>> 20) &&& 15),
   hexDigit ((x >>> 16) &&& 15), hexDigit ((x >>> 12) &&& 15), hexDigit ((x >>> 8) &&& 15),
   hexDigit ((x >>> 4) &&& 15), hexDigit (x &&& 15)]

/-- UTF-8 encoding of one character. -/
def utf8Char (c : Char) : List Nat :=
  let n := c.toNat
  if n < 128 then [n]
  else if n < 2048 then [192 ||| (n >>> 6), 128 ||| (n &&& 63)]
  else if n < 65536 then
    [224 ||| (n >>> 12), 128 ||| ((n >>> 6) &&& 63), 128 ||| (n &&& 63)]
  else
    [240 ||| (n >>> 18), 128 ||| ((n >>> 12) &&& 63), 128 ||| ((n >>> 6) &&& 63), 128 ||| (n &&& 63)]

/-- UTF-8 bytes of a string (Python `str.encode()`). -/
def utf8Encode (s : String) : List Nat :=
  (s.data.map utf8Char).foldr (· ++ ·) []

/-- Model of `hashlib.sha256(s.encode()).hexdigest()` as a character list. -/
def sha256HexChars (s : String) : List Char :=
  ((sha256Words (utf8Encode s)).map wordHex).foldr (· ++ ·) []

/-! ## `snowducks/utils.py` -/

/-- Embedding of `normalize_query_text`: `" ".join(query_text.strip().split()).lower()`. -/
def normalize_query_text (query_text : String) : String :=
  String.mk (pyLower (joinSpace (pySplitChars (pyStrip query_text.data))))

/-- Embedding of `generate_query_hash`: `"t_" + sha256(query_text.encode()).hexdigest()[:16]`. -/
def generate_query_hash (query_text : String) : String :=
  String.mk ('t' :: '_' :: (sha256HexChars query_text).take 16)

/-- Embedding of `generate_normalized_query_hash`: hash of the normalized query text. -/
def generate_normalized_query_hash (query_text : String) : String :=
  generate_query_hash (normalize_query_text query_text)

/-- Python `\w` (ASCII): letters, digits, underscore. -/
def isWordChar (c : Char) : Bool := c.isAlpha || c.isDigit || c = '_'

/-- Case-insensitive literal keyword match; returns the rest on success. -/
def dropKeywordCI : List Char → List Char → Option (List Char)
  | [], l => some l
  | _, [] => none
  | k :: ks, c :: t => if c.toLower = k.toLower then dropKeywordCI ks t else none

/-- Numeric value of a digit run (Python `int` of the matched group). -/
def digitsVal (l : List Char) : Nat :=
  l.foldl (fun a c => 10 * a + (c.toNat - 48)) 0

/-- Model of `\s*$`: the remainder is whitespace only. -/
def wsToEnd (l : List Char) : Bool := (l.dropWhile pyWs).isEmpty

/-- Match `limit\s+(\d+)(?:\s+offset\s+(\d+))?\s*$` (ignore-case) starting at the
head of `l`; returns the captured limit value. The optional offset group is
tried greedily and dropped on failure, as the regex engine does. -/
def matchLimitAt (l : List Char) : Option Nat :=
  match dropKeywordCI "limit".data l with
  | none => none
  | some r1 =>
    let r2 := r1.dropWhile pyWs
    if r1.length = r2.length then none
    else
      let ds := r2.takeWhile Char.isDigit
      if ds.isEmpty then none
      else
        let v := digitsVal ds
        let r3 := r2.dropWhile Char.isDigit
        let withOffset : Option Nat :=
          let r4 := r3.dropWhile pyWs
          if r3.length = r4.length then none
          else
            match dropKeywordCI "offset".data r4 with
            | none => none
            | some r5 =>
              let r6 := r5.dropWhile pyWs
              if r5.length = r6.length then none
              else
                let ds2 := r6.takeWhile Char.isDigit
                if ds2.isEmpty then none
                else if wsToEnd (r6.dropWhile Char.isDigit) then some v else none
        match withOffset with
        | some v' => some v'
        | none => if wsToEnd r3 then some v else none

/-- Model of `re.search` of the limit pattern: leftmost position satisfying the `\b`
word boundary where `matchLimitAt` succeeds. Returns the text before the
match and the limit value. -/
def searchLimit (prev : Option Char) : List Char → Option (List Char × Nat)
  | [] => none
  | c :: t =>
    let boundaryOk := match prev with
      | none => true
      | some p => !isWordChar p
    match if boundaryOk then matchLimitAt (c :: t) else none with
    | some v => some ([], v)
    | none => (searchLimit (some c) t).map fun pv => (c :: pv.1, pv.2)

/-- Embedding of `extract_limit_from_query`: normalize, then split off a trailing
`limit <int> [offset <int>]` clause, returning the remainder (stripped) and
the parsed limit value. -/
def extract_limit_from_query (query_text : String) : String × Option Nat :=
  let normalized := normalize_query_text query_text
  match searchLimit none normalized.data with
  | some (pre, v) => (String.mk (pyStrip pre), some v)
  | none => (normalized, none)

/-- Embedding of `generate_query_hash_without_limit`: hash of the limit-stripped query. -/
def generate_query_hash_without_limit (query_text : String) : String :=
  generate_query_hash (extract_limit_from_query query_text).1

/-- The dictionary built by `parse_query_metadata`. -/
structure QueryMetadata where
  original_query : String
  query_without_limit : String
  limit_value : Option Nat
  has_limit : Bool
  query_hash : String
deriving Repr, DecidableEq

/-- Embedding of `parse_query_metadata`. -/
def parse_query_metadata (query_text : String) : QueryMetadata :=
  let ql := extract_limit_from_query query_text
  { original_query := query_text
    query_without_limit := ql.1
    limit_value := ql.2
    has_limit := ql.2.isSome
    query_hash := generate_query_hash ql.1 }

/-- Python `str.isalnum()`: nonempty and all alphanumeric. -/
def pyStrIsAlnum (l : List Char) : Bool := !l.isEmpty && l.all Char.isAlphanum

/-- A cased character (ASCII letters, for the inputs at hand). -/
def pyIsCased (c : Char) : Bool := c.isAlpha

/-- Python `str.islower()`: at least one cased character, and every cased
character lowercase. In particular it is `False` on a digits-only string. -/
def pyStrIsLower (l : List Char) : Bool :=
  l.any pyIsCased && l.all fun c => !pyIsCased c || c.isLower

/-- Python `str.startswith(pre)`. -/
def pyStartsWith (pre l : List Char) : Bool := l.take pre.length = pre

/-- Embedding of `is_valid_cache_table_name`: starts with `t_`, total length 18, and the
remaining 16 characters pass Python's `isalnum()` and `islower()`. -/
def is_valid_cache_table_name (table_name : String) : Bool :=
  pyStartsWith "t_".data table_name.data
    && table_name.length = 18
    && pyStrIsAlnum (table_name.data.drop 2)
    && pyStrIsLower (table_name.data.drop 2)

/-- Embedding of `extract_hash_from_table_name`. -/
def extract_hash_from_table_name (table_name : String) : Option String :=
  if is_valid_cache_table_name table_name then
    some (String.mk (table_name.data.drop 2))
  else none

/-! ## `core.py`: the single-statement validator -/

/-- One line of `re.sub(r"--.*$", "", q, flags=re.MULTILINE)`: everything from
the first `--` to the end of the line is removed. -/
def takeBeforeDashDash : List Char → List Char
  | [] => []
  | '-' :: '-' :: _ => []
  | c :: t => c :: takeBeforeDashDash t

/-- Split at every newline (the separators themselves are dropped;
`n` newlines yield `n + 1` parts). -/
def splitNl : List Char → List (List Char)
  | [] => [[]]
  | '\n' :: t => [] :: splitNl t
  | c :: t =>
    match splitNl t with
    | [] => [[c]]
    | h :: r => (c :: h) :: r

/-- Rejoin line parts with newlines. -/
def joinNl : List (List Char) → List Char
  | [] => []
  | [x] => x
  | x :: r => x ++ '\n' :: joinNl r

/-- Model of `re.sub(r"--.*$", "", q, flags=re.MULTILINE)`: strip line comments
(`.` does not cross a newline, so each line loses its part from `--` on). -/
def removeLineComments (l : List Char) : List Char :=
  joinNl ((splitNl l).map takeBeforeDashDash)

/-- Position after the nearest following `*/`, if any (the non-greedy `.*?`). -/
def findBlockClose : List Char → Option (List Char)
  | [] => none
  | '*' :: '/' :: t => some t
  | _ :: t => findBlockClose t

/-- Fuel-driven worker for `removeBlockComments`; one unit of fuel per
consumed character suffices. -/
def removeBlockGo : Nat → List Char → List Char
  | 0, l => l
  | _, [] => []
  | fuel + 1, '/' :: '*' :: t =>
    (match findBlockClose t with
     | some rest => removeBlockGo fuel rest
     | none => '/' :: removeBlockGo fuel ('*' :: t))
  | fuel + 1, c :: t => c :: removeBlockGo fuel t

/-- Model of `re.sub(r"/\*.*?\*/", "", q, flags=re.DOTALL)`: remove each block comment
up to the nearest closing `*/`; an unterminated `/*` is left in place. -/
def removeBlockComments (l : List Char) : List Char :=
  removeBlockGo l.length l

/-- Worker for `collapseWs`: the flag records whether the previous character
was part of a whitespace run already emitted as one space. -/
def collapseWsGo : Bool → List Char → List Char
  | _, [] => []
  | inRun, c :: t =>
    if pyWs c then
      if inRun then collapseWsGo true t else ' ' :: collapseWsGo true t
    else c :: collapseWsGo false t

/-- Model of `re.sub(r"\s+", " ", q)`: collapse every whitespace run to one space. -/
def collapseWs (l : List Char) : List Char := collapseWsGo false l

/-- Match of the quoted-literal body after an opening quote `q`, following the
regex `q([^q]|qq)*q` with greedy backtracking: a doubled quote is consumed as
an escape when the rest still matches, otherwise the first of the pair closes
the literal. Returns the number of characters up to and including the closing
quote. -/
def litScan (q : Char) : List Char → Option Nat
  | [] => none
  | c :: rest =>
    if c = q then
      match rest with
      | r0 :: rest2 =>
        if r0 = q then
          match litScan q rest2 with
          | some n => some (n + 2)
          | none => some 1
        else some 1
      | [] => some 1
    else (litScan q rest).map (· + 1)

/-- Fuel-driven worker for `subQuoted`. -/
def subQuotedGo (q : Char) : Nat → List Char → List Char
  | 0, l => l
  | _, [] => []
  | fuel + 1, c :: t =>
    if c = q then
      match litScan q t with
      | some n => q :: q :: subQuotedGo q fuel (t.drop n)
      | none => c :: subQuotedGo q fuel t
    else c :: subQuotedGo q fuel t

/-- Model of `re.sub(r"q([^q]|qq)*q", "qq", s)` for quote character `q`: replace each
quoted literal by an empty quoted literal, scanning left to right. -/
def subQuoted (q : Char) (l : List Char) : List Char :=
  subQuotedGo q l.length l

/-- The text `_validate_single_query` inspects for stray semicolons: comments
removed, whitespace collapsed and stripped, then single- and double-quoted
literals blanked out. -/
def cleanedQuery (query : String) : List Char :=
  let c1 := removeLineComments query.data
  let c2 := removeBlockComments c1
  let c3 := pyStrip (collapseWs c2)
  let c4 := subQuoted '\'' c3
  subQuoted '"' c4

/-- Embedding of `_validate_single_query`, as the predicate "does not raise `QueryError`":
after cleaning, strip all trailing semicolons (`rstrip(";")`) and surrounding
whitespace; accept iff no semicolon remains. -/
def validate_single_query (query : String) : Bool :=
  let noTrailing := pyStrip (pyRstripChar ';' (cleanedQuery query))
  !noTrailing.contains ';'

/-- Reading of the claim's acceptance condition, modelled from the claim's own
words (for comparison with the code): after stripping comments and literals,
the only allowed statement separator is one single trailing semicolon. -/
def claimSingleTrailingSemi (query : String) : Bool :=
  let c := cleanedQuery query
  c.count ';' = 0 || (c.count ';' = 1 && c.getLast? = some ';')

/-- Every semicolon lies in the trailing run of semicolons. -/
def trailingSemisOnly (l : List Char) : Bool :=
  (l.dropWhile fun c => c ≠ ';').all fun c => c = ';'

/-! ## `ducklake_manager.py`: metadata catalog and cache state machine

The in-memory DuckDB connection is modelled as always available; timestamps
are integer seconds and `timedelta(hours = h)` is `h * 3600`. Inputs the code
reads from the environment (clock, `getpass.getuser()`, the `glob` file count)
become explicit arguments. -/

/-- The configuration fields the manager consults. `cache_max_age_hours` is a
`Nat` because `SnowDucksConfig.validate` rejects negative values. -/
structure SnowDucksConfig where
  cache_max_age_hours : Nat
  cache_force_refresh : Bool
  deployment_mode : String
deriving Repr, DecidableEq

/-- A row of `snowducks_queries`. -/
structure QueryRecord where
  query_hash : String
  query_text : String
  first_seen : Int
  last_used : Int
  usage_count : Nat
  avg_execution_time_ms : Option Nat
  total_rows_fetched : Nat
  created_by : String
  last_refresh : Option Int
  cache_max_age_hours : Nat
deriving Repr, DecidableEq

/-- A row of `snowducks_query_metadata`. -/
structure QueryMetadataRow where
  query_hash : String
  original_query : String
  query_without_limit : String
  limit_value : Option Nat
  has_limit : Bool
  created_at : Int
deriving Repr, DecidableEq

/-- A row of `snowducks_cache_metadata`. -/
structure CacheEntry where
  query_hash : String
  table_name : String
  file_count : Nat
  total_size_bytes : Option Nat
  row_count : Nat
  created_at : Int
  expires_at : Option Int
  created_by : String
deriving Repr, DecidableEq

/-- A row of `snowducks_users`. -/
structure UserRecord where
  user_id : String
  first_seen : Int
  last_seen : Int
  total_queries : Nat
  environment : String
deriving Repr, DecidableEq

/-- The manager's observable state: the four metadata tables plus the set of
tables actually existing in storage, as `(schema, name)` pairs. -/
structure ManagerState where
  config : SnowDucksConfig
  queries : List QueryRecord
  query_metadata : List QueryMetadataRow
  cache_metadata : List CacheEntry
  users : List UserRecord
  tables : List (String × String)
deriving Repr, DecidableEq

/-- Embedding of `_get_schema_name`. -/
def schemaName : String := "snowducks_ducklake"

/-- Python `fq_table_name.split(".", 1)`: split at the first dot. -/
def splitFirstDot (s : String) : String × String :=
  (String.mk (s.data.takeWhile fun c => c ≠ '.'),
   String.mk ((s.data.dropWhile fun c => c ≠ '.').drop 1))

/-- Embedding of `_table_exists`: look in the expected schema, then fall back to `main`. -/
def tableExists (s : ManagerState) (fq_table_name : String) : Bool :=
  let p := splitFirstDot fq_table_name
  s.tables.contains p || s.tables.contains ("main", p.2)

/-- Embedding of `_is_cache_fresh`: false under force-refresh, with no row, or with a null
`last_refresh`; otherwise `now - last_refresh < timedelta(hours = row.cache_max_age_hours)`
using the max-age recorded in the row. -/
def isCacheFresh (s : ManagerState) (now : Int) (query_hash : String) : Bool :=
  if s.config.cache_force_refresh then false
  else
    match s.queries.find? (fun r => r.query_hash == query_hash) with
    | none => false
    | some r =>
      match r.last_refresh with
      | none => false
      | some lr => now - lr < (r.cache_max_age_hours : Int) * 3600

/-- Embedding of `_update_cache_usage`: bump `last_used` and `usage_count` for a hit. -/
def updateCacheUsage (s : ManagerState) (now : Int) (query_hash : String) : ManagerState :=
  { s with queries := s.queries.map fun r =>
      if r.query_hash == query_hash then
        { r with last_used := now, usage_count := r.usage_count + 1 }
      else r }

/-- Embedding of `get_cached_table_name`: return the fully-qualified cached table name when
the table exists and the cache is fresh, bumping usage stats; otherwise `None`. -/
def getCachedTableName (s : ManagerState) (now : Int) (query_text : String) :
    Option String × ManagerState :=
  let query_hash := generate_normalized_query_hash query_text
  let fq_table_name := schemaName ++ "." ++ query_hash
  let te := tableExists s fq_table_name
  let cf := isCacheFresh s now query_hash
  if !te || !cf then (none, s)
  else (some fq_table_name, updateCacheUsage s now query_hash)

/-- Embedding of `_update_user_stats`: delete-then-insert the caller's user row. -/
def updateUserStats (s : ManagerState) (now : Int) (user_id : String) : ManagerState :=
  { s with users := (s.users.filter fun u => u.user_id != user_id) ++
      [{ user_id := user_id, first_seen := now, last_seen := now, total_queries := 1,
         environment := s.config.deployment_mode }] }

/-- Embedding of `create_cached_table`: materialize the table under the fingerprint-derived
name and replace (delete-then-insert) the `snowducks_queries`,
`snowducks_query_metadata` and `snowducks_cache_metadata` rows for the
fingerprint; `expires_at = now + max_age` when the configured max age is
positive, else null. `file_count` stands for the result of the `glob` count on
`data_path`. -/
def createCachedTable (s : ManagerState) (now : Int) (query_text : String)
    (row_count : Nat) (execution_time_ms : Option Nat) (user_id : String)
    (file_count : Nat) : String × ManagerState :=
  let query_hash := generate_normalized_query_hash query_text
  let fq_table_name := schemaName ++ "." ++ query_hash
  let metadata := parse_query_metadata query_text
  let expires_at : Option Int :=
    if s.config.cache_max_age_hours > 0 then
      some (now + (s.config.cache_max_age_hours : Int) * 3600)
    else none
  let s1 := { s with
    tables := if (s.tables.contains (schemaName, query_hash)) then s.tables
      else s.tables ++ [(schemaName, query_hash)]
    queries := (s.queries.filter fun r => r.query_hash != query_hash) ++
      [{ query_hash := query_hash
         query_text := metadata.query_without_limit
         first_seen := now
         last_used := now
         usage_count := 1
         avg_execution_time_ms := execution_time_ms
         total_rows_fetched := row_count
         created_by := user_id
         last_refresh := some now
         cache_max_age_hours := s.config.cache_max_age_hours }]
    query_metadata := (s.query_metadata.filter fun r => r.query_hash != query_hash) ++
      [{ query_hash := query_hash
         original_query := metadata.original_query
         query_without_limit := metadata.query_without_limit
         limit_value := metadata.limit_value
         has_limit := metadata.has_limit
         created_at := now }]
    cache_metadata := (s.cache_metadata.filter fun r => r.query_hash != query_hash) ++
      [{ query_hash := query_hash
         table_name := fq_table_name
         file_count := file_count
         total_size_bytes := none
         row_count := row_count
         created_at := now
         expires_at := expires_at
         created_by := user_id }] }
  (fq_table_name, updateUserStats s1 now user_id)

/-- One iteration of the `cleanup_expired_cache` loop: drop the backing table
(schema-qualified, unquoted) and delete the metadata rows for the entry's
fingerprint, counting the entry as cleaned. -/
def cleanupStep (acc : Nat × ManagerState) (e : CacheEntry) : Nat × ManagerState :=
  let s := acc.2
  (acc.1 + 1,
   { s with
     tables := s.tables.filter fun t => t ≠ splitFirstDot e.table_name
     cache_metadata := s.cache_metadata.filter fun r => r.query_hash ≠ e.query_hash })

/-- The `WHERE expires_at IS NOT NULL AND expires_at < ?` test of
`cleanup_expired_cache`. -/
def entryExpired (cutoff : Int) (e : CacheEntry) : Bool :=
  match e.expires_at with
  | some t => decide (t < cutoff)
  | none => false

/-- Embedding of `cleanup_expired_cache`: fetch the entries with a non-null `expires_at`
earlier than `now - timedelta(hours = cache_max_age_hours)` and clean each up,
returning the number cleaned. -/
def cleanupExpiredCache (s : ManagerState) (now : Int) : Nat × ManagerState :=
  let cutoff := now - (s.config.cache_max_age_hours : Int) * 3600
  let expired := s.cache_metadata.filter (entryExpired cutoff)
  expired.foldl cleanupStep (0, s)

/-- Embedding of `clear_all_cache`: drop every cached table (schema-qualified, unquoted),
counting one per metadata row, then delete all cache metadata. -/
def clearAllCache (s : ManagerState) : Nat × ManagerState :=
  (s.cache_metadata.length,
   { s with
     tables := s.tables.filter fun t =>
       s.cache_metadata.all fun e => splitFirstDot e.table_name ≠ t
     cache_metadata := [] })

/-- Embedding of `clear_cache_by_hash`: fetch the fingerprint's table names, drop each with
`DROP TABLE IF EXISTS "{name}"` — the quoted identifier resolves in the
default `main` schema, not in `snowducks_ducklake` — then delete the
fingerprint's `snowducks_cache_metadata` rows and return how many table names
were fetched. (The local-mode Parquet-file unlink touches only the data
directory, outside this state model.) Rows in `snowducks_queries` and
`snowducks_query_metadata` are not deleted. -/
def clearCacheByHash (s : ManagerState) (query_hash : String) : Nat × ManagerState :=
  let tables_to_drop := (s.cache_metadata.filter fun e => e.query_hash == query_hash).map
    (fun e => e.table_name)
  (tables_to_drop.length,
   { s with
     tables := s.tables.filter fun t => tables_to_drop.all fun n => ("main", n) ≠ t
     cache_metadata := s.cache_metadata.filter fun e => e.query_hash != query_hash })

/-- Embedding of `core.clear_cache`: with a truthy (non-empty) `cache_key` it only prints a
message and returns 1 — the single-fingerprint path is not wired to
`clear_cache_by_hash` — otherwise it clears everything. -/
def clear_cache (s : ManagerState) (cache_key : Option String) : Nat × ManagerState :=
  match cache_key with
  | some k => if k.length ≠ 0 then (1, s) else clearAllCache s
  | none => clearAllCache s

/-- The `DuckLakeError` message raised when the lock bound is exhausted. -/
def lockTimeoutMsg : String :=
  "Could not acquire database lock after 30 seconds. Another process may be using the database."

/-- Embedding of `_acquire_lock`, parameterized by which attempts would win the non-blocking
`flock` (`avail i` = attempt `i` succeeds). Structural recursion mirrors
`for attempt in range(30)`; the result carries the number of 1-second sleeps
performed before success. Falling out of the loop (fuel exhausted) cannot
happen for `maxAttempts = 30 > 0` but is modelled as Python's plain return. -/
def acquireLockGo (avail : Nat → Bool) (maxAttempts : Nat) :
    Nat → Nat → Nat → Except String Nat
  | 0, _, sleeps => Except.ok sleeps
  | fuel + 1, attempt, sleeps =>
    if avail attempt then Except.ok sleeps
    else if attempt < maxAttempts - 1 then acquireLockGo avail maxAttempts fuel (attempt + 1)
      (sleeps + 1)
    else Except.error lockTimeoutMsg

/-- Embedding of `_acquire_lock` with the hard-coded bound of 30 attempts. -/
def acquireLock (avail : Nat → Bool) : Except String Nat :=
  acquireLockGo avail 30 30 0 0

/-! ## Operation sequences and auxiliary notions for the claims -/

/-- The cache operations a caller can run against the manager. -/
inductive CacheOp where
  | create (now : Int) (query_text : String) (row_count : Nat)
      (execution_time_ms : Option Nat) (user_id : String) (file_count : Nat)
  | lookup (now : Int) (query_text : String)
  | cleanup (now : Int)
  | clearAll
  | clearOne (cache_key : Option String)
  | clearByHash (query_hash : String)

/-- State transition of one cache operation. -/
def CacheOp.step (s : ManagerState) : CacheOp → ManagerState
  | .create now q rc et uid fc => (createCachedTable s now q rc et uid fc).2
  | .lookup now q => (getCachedTableName s now q).2
  | .cleanup now => (cleanupExpiredCache s now).2
  | .clearAll => (clearAllCache s).2
  | .clearOne k => (clear_cache s k).2
  | .clearByHash h => (clearCacheByHash s h).2

/-- The state right after `_create_metadata_tables` on a fresh catalog. -/
def initState (cfg : SnowDucksConfig) : ManagerState :=
  { config := cfg, queries := [], query_metadata := [], cache_metadata := [],
    users := [], tables := [] }

/-- Run a sequence of cache operations from a fresh catalog. -/
def runOps (cfg : SnowDucksConfig) (ops : List CacheOp) : ManagerState :=
  ops.foldl CacheOp.step (initState cfg)

/-- At most one row per fingerprint, for a table with key function `key`. -/
def hashUnique {α : Type} (key : α → String) (l : List α) : Prop :=
  l.Pairwise fun a b => key a ≠ key b

/-- The per-fingerprint row-uniqueness invariant of the metadata catalog. -/
def StateInv (s : ManagerState) : Prop :=
  hashUnique QueryRecord.query_hash s.queries ∧
    hashUnique CacheEntry.query_hash s.cache_metadata

/-- Two character sequences that differ only in whitespace run-lengths and
letter case: matching non-whitespace characters agree up to case, and
whitespace runs (nonempty on both sides) may have different lengths. -/
inductive WsCaseEquiv : List Char → List Char → Prop
  | nil : WsCaseEquiv [] []
  | char {c1 c2 : Char} {t1 t2 : List Char} :
      pyWs c1 = false → pyWs c2 = false → c1.toLower = c2.toLower →
      WsCaseEquiv t1 t2 → WsCaseEquiv (c1 :: t1) (c2 :: t2)
  | ws {w1 w2 t1 t2 : List Char} :
      w1 ≠ [] → w2 ≠ [] → (∀ c ∈ w1, pyWs c = true) → (∀ c ∈ w2, pyWs c = true) →
      WsCaseEquiv t1 t2 → WsCaseEquiv (w1 ++ t1) (w2 ++ t2)

/-- A lowercase hexadecimal character. -/
def isLowerHex (c : Char) : Bool := c.isDigit || ('a' ≤ c && c ≤ 'f')

/-- A configuration with a one-hour max age, used by concrete witnesses. -/
def cfg1h : SnowDucksConfig :=
  { cache_max_age_hours := 1, cache_force_refresh := false, deployment_mode := "local" }

/-- Query record for `"select 1"` (fingerprint `t_822ae07d4783158b`),
refreshed at time 50 with a one-hour max age. -/
def hitRecord : QueryRecord :=
  { query_hash := "t_822ae07d4783158b", query_text := "select 1",
    first_seen := 50, last_used := 50, usage_count := 1,
    avg_execution_time_ms := none, total_rows_fetched := 1,
    created_by := "u", last_refresh := some 50, cache_max_age_hours := 1 }

/-- Witness state: a fresh, backed cache entry for `"select 1"`
(fingerprint `t_822ae07d4783158b`), refreshed at time 50. -/
def hitState : ManagerState :=
  { config := cfg1h
    queries := [hitRecord]
    query_metadata := []
    cache_metadata := [{ query_hash := "t_822ae07d4783158b",
                         table_name := "snowducks_ducklake.t_822ae07d4783158b",
                         file_count := 1, total_size_bytes := none, row_count := 1,
                         created_at := 50, expires_at := some 3650, created_by := "u" }]
    users := []
    tables := [("snowducks_ducklake", "t_822ae07d4783158b")] }

/-- A cache entry whose recorded expiry (time 9999) is already in the past at
time 10000, with its backing table present. -/
def staleEntry : CacheEntry :=
  { query_hash := "t_0123456789abcdef", table_name := "snowducks_ducklake.t_0123456789abcdef",
    file_count := 1, total_size_bytes := none, row_count := 1, created_at := 0,
    expires_at := some 9999, created_by := "u" }

/-- State holding exactly `staleEntry` and its backing table. -/
def staleState : ManagerState :=
  { config := cfg1h
    queries := []
    query_metadata := []
    cache_metadata := [staleEntry]
    users := []
    tables := [("snowducks_ducklake", "t_0123456789abcdef")] }

/-- Embedding of `DuckLakeManager._generate_query_hash`: the fingerprint the manager uses
for lookups and table names, "using shared utility (including LIMIT)". -/
def managerGenerateQueryHash (query_text : String) : String :=
  generate_normalized_query_hash query_text

/-! # Theorems -/

/-! ## Sanity checks of the embedding -/

/-- FIPS 180-4 test vector: digest of the empty message. -/
theorem sha256_empty_vector :
    String.mk (sha256HexChars "") =
      "e3b0c44298fc1c149afbf4c8996fb92427ae41e4649b934ca495991b7852b855" := by
  decide

/-- FIPS 180-4 test vector: digest of `"abc"`. -/
theorem sha256_abc_vector :
    String.mk (sha256HexChars "abc") =
      "ba7816bf8f01cfea414140de5dae2223b00361a396177a9cb410ff61f20015ad" := by
  decide

/-- Sanity example mirroring the repository's own test
`test_extract_limit_from_query_with_offset`. -/
theorem extract_limit_offset_example :
    extract_limit_from_query "SELECT * FROM users LIMIT 1000 OFFSET 200" =
      ("select * from users", some 1000) := by
  decide

/-- Sanity examples: semicolons inside comments and literals do not count; an
interior separator is rejected. -/
theorem validate_examples :
    validate_single_query "SELECT ';' FROM t -- tail; comment\n WHERE x = \"a;b\"" = true
      ∧ validate_single_query "SELECT /* a; b */ 1;" = true
      ∧ validate_single_query "SELECT 1; SELECT 2" = false := by
  decide

/-! ## C2: fingerprint stability under reformatting -/

/-- C2 counterexample: two queries that differ only in one trailing semicolon
do not share a fingerprint — `normalize_query_text` never strips semicolons,
so the claim's trailing-semicolon clause fails on the code. -/
theorem normalized_hash_trailing_semicolon_cex :
    "select 1;" = "select 1" ++ ";" ∧
      generate_normalized_query_hash "select 1" ≠
        generate_normalized_query_hash "select 1;" := by
  decide

/-! ## C3: the fingerprint the manager uses -/

/-- C3 counterexample: the manager's fingerprint is computed from the
normalized query *including* its LIMIT clause, so two variants that differ
only in the trailing LIMIT value receive different fingerprints (and hence
different cache tables), contrary to the claim. -/
theorem manager_hash_includes_limit_cex :
    managerGenerateQueryHash "select * from t limit 10" ≠
      managerGenerateQueryHash "select * from t limit 20" := by
  decide

/-- C3 amended: the manager fingerprints the full normalized query, so
distinct LIMIT values yield distinct fingerprints; the limit-stripped *body*
fingerprint is computed by `generate_query_hash_without_limit` (identical for
the two variants), and the limit value itself is recorded separately in the
query-metadata row written by `create_cached_table`. -/
theorem manager_hash_and_body_hash :
    managerGenerateQueryHash "select * from t limit 10" ≠
        managerGenerateQueryHash "select * from t limit 20"
      ∧ generate_query_hash_without_limit "select * from t limit 10" =
        generate_query_hash_without_limit "select * from t limit 20"
      ∧ (parse_query_metadata "select * from t limit 10").query_without_limit =
        "select * from t"
      ∧ (parse_query_metadata "select * from t limit 10").limit_value = some 10
      ∧ (parse_query_metadata "select * from t limit 20").limit_value = some 20
      ∧ ((createCachedTable (initState cfg1h) 0 "select * from t limit 10" 1 none "u"
            1).2.query_metadata.find? fun r =>
              r.query_hash == managerGenerateQueryHash "select * from t limit 10").map
          QueryMetadataRow.limit_value = some (some 10) := by
  decide

/-! ## C4: cleanup of expired entries -/

/-- C4 counterexample: an entry whose `expires_at` (9999) is already in the
past at the time of the call (10000) is *not* removed, because the code
compares `expires_at` against `now - timedelta(hours=cache_max_age_hours)`,
not against `now`. -/
theorem cleanup_expired_grace_cex :
    staleEntry.expires_at = some 9999 ∧ (9999 : Int) < 10000 ∧
      cleanupExpiredCache staleState 10000 = (0, staleState) := by
  decide

/-! ## C5: fingerprint/validator round trip -/

/-- C5: the fingerprint of `"select 389"` is `t_` followed by 16 lowercase hex
characters, as the claim says, yet `is_valid_cache_table_name` rejects it:
the 16 characters happen to be all digits, and Python's `str.islower()` is
`False` for a string with no cased character. -/
theorem hash_roundtrip_islower_bug :
    generate_query_hash "select 389" = "t_8689797022173536"
      ∧ ((generate_query_hash "select 389").data.drop 2).all isLowerHex = true
      ∧ ((generate_query_hash "select 389").data.drop 2).length = 16
      ∧ pyStartsWith "t_".data (generate_query_hash "select 389").data = true
      ∧ is_valid_cache_table_name (generate_query_hash "select 389") = false := by
  decide

/-! ## C6: the single-statement guard -/

/-- C6 counterexample: `"select 1;;"` carries two statement-separator
semicolons, one more than the single optional trailing one the claim allows,
yet the validator accepts it — `rstrip(";")` strips the entire trailing run. -/
theorem validate_double_trailing_cex :
    claimSingleTrailingSemi "select 1;;" = false ∧
      validate_single_query "select 1;;" = true := by
  decide

/-! ## C8: clearing a single fingerprint -/

/-- C8: the public entry point `clear_cache`, given a (truthy) cache key,
returns 1 unconditionally and mutates nothing: with no entry for the
fingerprint it still returns 1 (the claim requires 0), and with an existing
entry it neither drops the table nor deletes the metadata rows (the
single-fingerprint path is a stub that never calls `clear_cache_by_hash`). -/
theorem clear_cache_single_key_stub :
    clear_cache (initState cfg1h) (some "t_0123456789abcdef") = (1, initState cfg1h)
      ∧ clear_cache staleState (some "t_0123456789abcdef") = (1, staleState)
      ∧ staleState.cache_metadata = [staleEntry] := by
  decide

/-! ## C9: bounded lock acquisition -/

/-- Under total contention the retry loop ends in the timeout error once it
reaches the final attempt. -/
theorem acquireLockGo_timeout (avail : Nat → Bool) :
    ∀ fuel attempt sleeps, 0 < fuel → attempt + fuel = 30 →
      (∀ i, i < 30 → avail i = false) →
      acquireLockGo avail 30 fuel attempt sleeps = Except.error lockTimeoutMsg := by
  intro fuel
  induction fuel with
  | zero => omega
  | succ f ih =>
    intro attempt sleeps _ h2 hav
    have ha : avail attempt = false := hav attempt (by omega)
    by_cases hc : attempt < 30 - 1
    · simp only [acquireLockGo, ha, if_false, hc, if_true, Bool.false_eq_true]
      exact ih (attempt + 1) (sleeps + 1) (by omega) (by omega) hav
    · simp [acquireLockGo, ha, hc]

/-- If the first available attempt within the bound is `i`, the loop returns
successfully after exactly `i` one-second sleeps. -/
theorem acquireLockGo_success (avail : Nat → Bool) :
    ∀ fuel attempt, attempt + fuel = 30 →
      ∀ i, attempt ≤ i → i < 30 → avail i = true →
        (∀ j, attempt ≤ j → j < i → avail j = false) →
        acquireLockGo avail 30 fuel attempt attempt = Except.ok i := by
  intro fuel
  induction fuel with
  | zero => omega
  | succ f ih =>
    intro attempt h2 i hle hlt hav hj
    by_cases he : attempt = i
    · subst he
      simp [acquireLockGo, hav]
    · have ha : avail attempt = false := hj attempt le_rfl (by omega)
      have hc : attempt < 30 - 1 := by omega
      simp only [acquireLockGo, ha, Bool.false_eq_true, if_false, hc, if_true]
      exact ih (attempt + 1) (by omega) i (by omega) hlt hav
        (fun j hj1 hj2 => hj j (by omega) hj2)

/-- C9: `_acquire_lock` tries a non-blocking lock up to 30 times, sleeping one
second per contention; if all 30 attempts are contended it fails with the
lock-timeout error, and if some attempt `i < 30` is the first to succeed it
returns successfully after `i` sleeps. -/
theorem acquireLock_bounded_retry (avail : Nat → Bool) :
    ((∀ i, i < 30 → avail i = false) → acquireLock avail = Except.error lockTimeoutMsg)
      ∧ ∀ i, i < 30 → avail i = true → (∀ j, j < i → avail j = false) →
        acquireLock avail = Except.ok i := by
  constructor
  · intro hav
    exact acquireLockGo_timeout avail 30 0 0 (by omega) (by omega) hav
  · intro i hi hav hj
    exact acquireLockGo_success avail 30 0 (by omega) i (by omega) hi hav
      (fun j _ hji => hj j hji)

/-- C9 witness: with no attempt ever succeeding the lock times out; with the
third attempt the first to succeed, acquisition returns after two sleeps. -/
theorem acquireLock_bounded_retry_witness :
    acquireLock (fun _ => false) = Except.error lockTimeoutMsg
      ∧ acquireLock (fun i => decide (i = 2)) = Except.ok 2 :=
  ⟨(acquireLock_bounded_retry (fun _ => false)).1 (by decide),
   (acquireLock_bounded_retry (fun i => decide (i = 2))).2 2 (by decide) (by decide)
     (by decide)⟩

/-! ## C10: a rewrite resets the usage statistics -/

/-- Helper: `find?` skips a prefix in which nothing matches. -/
theorem find?_append_of_none {α : Type} (p : α → Bool) (l₁ l₂ : List α)
    (h : l₁.find? p = none) : (l₁ ++ l₂).find? p = l₂.find? p := by
  induction l₁ with
  | nil => simp
  | cons a t ih =>
    rw [List.find?_eq_none] at h
    have hpa : ¬p a = true := h a (by simp)
    rw [List.cons_append, List.find?_cons_of_neg _ hpa]
    exact ih (List.find?_eq_none.mpr fun x hx => h x (by simp [hx]))

/-- C10: after every `create_cached_table` for a fingerprint — including a
refresh of an already-cached fingerprint — the stored query record has
`usage_count = 1` and `first_seen = now` (the time of this write): the
delete-then-insert discards the prior row's accumulated statistics. -/
theorem create_cached_table_resets_stats (s : ManagerState) (now : Int) (q : String)
    (rc : Nat) (et : Option Nat) (uid : String) (fc : Nat) :
    ((createCachedTable s now q rc et uid fc).2.queries.find? fun r =>
        r.query_hash == generate_normalized_query_hash q) =
      some { query_hash := generate_normalized_query_hash q
             query_text := (parse_query_metadata q).query_without_limit
             first_seen := now
             last_used := now
             usage_count := 1
             avg_execution_time_ms := et
             total_rows_fetched := rc
             created_by := uid
             last_refresh := some now
             cache_max_age_hours := s.config.cache_max_age_hours } := by
  show ((s.queries.filter _ ++ [_]).find? _) = _
  rw [find?_append_of_none]
  · simp
  · rw [List.find?_eq_none]
    intro x hx
    have := (List.mem_filter.mp hx).2
    simp only [bne_iff_ne, ne_eq] at this
    simp [this]

/-! ## C1: the cache-hit condition -/

/-- With pairwise-distinct keys, `find?` on a key returns exactly the member
carrying that key. -/
theorem find?_key_unique {α : Type} (key : α → String) (l : List α)
    (hu : l.Pairwise fun a b => key a ≠ key b) (x : α) (hx : x ∈ l) (k : String)
    (hk : key x = k) : l.find? (fun a => key a == k) = some x := by
  induction l with
  | nil => cases hx
  | cons a t ih =>
    rcases List.mem_cons.mp hx with h | h
    · subst h
      rw [List.find?_cons_of_pos]
      simp [hk]
    · have hne : key a ≠ k := fun hak =>
        (List.pairwise_cons.mp hu).1 x h (hak.trans hk.symm)
      rw [List.find?_cons_of_neg _ (by simp [hne])]
      exact ih (List.pairwise_cons.mp hu).2 h

/-- Freshness characterization of `_is_cache_fresh` under row uniqueness. -/
theorem isCacheFresh_iff (s : ManagerState) (now : Int) (h : String)
    (hu : s.queries.Pairwise fun a b => a.query_hash ≠ b.query_hash) :
    isCacheFresh s now h = true ↔
      (s.config.cache_force_refresh = false
        ∧ ∃ r ∈ s.queries, r.query_hash = h
            ∧ ∃ lr, r.last_refresh = some lr
              ∧ now - lr < (r.cache_max_age_hours : Int) * 3600) := by
  unfold isCacheFresh
  by_cases hforce : s.config.cache_force_refresh
  · simp [hforce]
  · rw [if_neg hforce]
    cases hfind : s.queries.find? (fun r => r.query_hash == h) with
    | none =>
      constructor
      · intro hf; simp at hf
      · rintro ⟨_, r, hr, hkey, _⟩
        have hsome : s.queries.find? (fun a => a.query_hash == h) = some r :=
          find?_key_unique QueryRecord.query_hash s.queries hu r hr h hkey
        rw [hfind] at hsome
        cases hsome
    | some r =>
      have hr : r ∈ s.queries := List.mem_of_find?_eq_some hfind
      have hkey : r.query_hash = h := by
        have := List.find?_some hfind
        simpa using this
      show (match r.last_refresh with
        | none => false
        | some lr => decide (now - lr < (r.cache_max_age_hours : Int) * 3600)) = true ↔ _
      cases hlr : r.last_refresh with
      | none =>
        constructor
        · intro hf; simp at hf
        · rintro ⟨_, r', hr', hkey', lr, hlr', _⟩
          have hsome : s.queries.find? (fun a => a.query_hash == h) = some r' :=
            find?_key_unique QueryRecord.query_hash s.queries hu r' hr' h hkey'
          rw [hfind] at hsome
          injection hsome with hrr
          rw [← hrr, hlr] at hlr'
          cases hlr'
      | some lr =>
        constructor
        · intro hf
          exact ⟨by simpa using hforce, r, hr, hkey, lr, hlr, by simpa using hf⟩
        · rintro ⟨_, r', hr', hkey', lr', hlr', hlt'⟩
          have hsome : s.queries.find? (fun a => a.query_hash == h) = some r' :=
            find?_key_unique QueryRecord.query_hash s.queries hu r' hr' h hkey'
          rw [hfind] at hsome
          injection hsome with hrr
          rw [← hrr, hlr] at hlr'
          injection hlr' with hlrlr
          show decide (now - lr < (r.cache_max_age_hours : Int) * 3600) = true
          rw [decide_eq_true_eq, hrr, hlrlr]
          exact hlt'

/-- The hit test of `get_cached_table_name` is the conjunction of table
existence and freshness. -/
theorem getCachedTableName_isSome (s : ManagerState) (now : Int) (q : String) :
    (getCachedTableName s now q).1.isSome =
      (tableExists s (schemaName ++ "." ++ generate_normalized_query_hash q)
        && isCacheFresh s now (generate_normalized_query_hash q)) := by
  unfold getCachedTableName
  cases h1 : tableExists s (schemaName ++ "." ++ generate_normalized_query_hash q) <;>
    cases h2 : isCacheFresh s now (generate_normalized_query_hash q) <;>
      simp [h1, h2]

/-- C1: `get_cached_table_name` reports a hit exactly when the global
force-refresh flag is unset, a query record for the fingerprint exists with a
non-null `last_refresh` within the max age recorded in that row, and the
backing table exists in storage; in every other case it reports a miss. -/
theorem get_cached_table_name_hit_iff (s : ManagerState) (now : Int) (q : String)
    (hu : s.queries.Pairwise fun a b => a.query_hash ≠ b.query_hash) :
    (getCachedTableName s now q).1.isSome = true ↔
      (s.config.cache_force_refresh = false
        ∧ (∃ r ∈ s.queries, r.query_hash = generate_normalized_query_hash q
            ∧ ∃ lr, r.last_refresh = some lr
              ∧ now - lr < (r.cache_max_age_hours : Int) * 3600)
        ∧ tableExists s (schemaName ++ "." ++ generate_normalized_query_hash q) = true) := by
  rw [getCachedTableName_isSome, Bool.and_eq_true,
    isCacheFresh_iff s now (generate_normalized_query_hash q) hu]
  tauto

/-- C1 witness: in `hitState` at time 100 the query `"select 1"` is a hit, and
all hypotheses of the hit condition hold concretely. -/
theorem get_cached_table_name_hit_iff_witness :
    (getCachedTableName hitState 100 "select 1").1.isSome = true :=
  (get_cached_table_name_hit_iff hitState 100 "select 1" (by decide)).mpr
    ⟨rfl, ⟨hitRecord, by decide, by decide, 50, rfl, by decide⟩, by decide⟩

/-! ## C4: characterization of `cleanup_expired_cache` -/

/-- Two consecutive filters compose into the conjunction of the predicates. -/
theorem filter_filter_and {α : Type} (p q : α → Bool) (l : List α) :
    (l.filter p).filter q = l.filter fun a => p a && q a := by
  induction l with
  | nil => rfl
  | cons a t ih => by_cases hp : p a <;> by_cases hq : q a <;> simp [hp, hq, ih]

/-- Closed form of the `cleanup_expired_cache` loop: folding `cleanupStep`
over a list of entries counts them all and filters the storage tables and the
cache metadata by all of their drop/delete conditions at once. -/
theorem foldl_cleanupStep (l : List CacheEntry) (n : Nat) (s : ManagerState) :
    l.foldl cleanupStep (n, s) =
      (n + l.length,
       { s with
         tables := s.tables.filter fun t =>
           l.all fun e => decide (t ≠ splitFirstDot e.table_name)
         cache_metadata := s.cache_metadata.filter fun r =>
           l.all fun e => decide (r.query_hash ≠ e.query_hash) }) := by
  induction l generalizing n s with
  | nil => simp
  | cons e tl ih =>
    rw [List.foldl_cons, cleanupStep, ih]
    refine congrArg₂ Prod.mk (by simp only [List.length_cons]; omega) ?_
    have h1 : ∀ t : String × String,
        (decide (t ≠ splitFirstDot e.table_name) &&
          (tl.all fun e2 => decide (t ≠ splitFirstDot e2.table_name))) =
        ((e :: tl).all fun e2 => decide (t ≠ splitFirstDot e2.table_name)) := by
      intro t; simp [List.all_cons]
    have h2 : ∀ r : CacheEntry,
        (decide (r.query_hash ≠ e.query_hash) &&
          (tl.all fun e2 => decide (r.query_hash ≠ e2.query_hash))) =
        ((e :: tl).all fun e2 => decide (r.query_hash ≠ e2.query_hash)) := by
      intro r; simp [List.all_cons]
    simp only [filter_filter_and, h1, h2]

/-- In a key-unique list, two members with the same key are equal. -/
theorem hashUnique_eq_of_key_eq {α : Type} (key : α → String) (l : List α)
    (hu : l.Pairwise fun a b => key a ≠ key b) (a b : α) (ha : a ∈ l) (hb : b ∈ l)
    (hk : key a = key b) : a = b := by
  induction l with
  | nil => cases ha
  | cons x t ih =>
    have hu' := List.pairwise_cons.mp hu
    rcases List.mem_cons.mp ha with h1 | h1 <;> rcases List.mem_cons.mp hb with h2 | h2
    · rw [h1, h2]
    · subst h1; exact absurd hk (hu'.1 b h2)
    · subst h2; exact absurd hk.symm (hu'.1 a h1)
    · exact ih hu'.2 h1 h2

/-- C4 amended: `cleanup_expired_cache` removes exactly the cache entries
whose `expires_at` is non-null and earlier than `now` minus the configured max
age (an extra grace window of `cache_max_age_hours` beyond the recorded
expiry, rather than `expires_at < now`), drops exactly those entries' backing
tables, leaves all other entries, tables and the rest of the state untouched,
and returns the number of entries removed. -/
theorem cleanup_expired_cache_spec (s : ManagerState) (now : Int)
    (hu : s.cache_metadata.Pairwise fun a b => a.query_hash ≠ b.query_hash) :
    (cleanupExpiredCache s now).1 =
        (s.cache_metadata.filter
          (entryExpired (now - (s.config.cache_max_age_hours : Int) * 3600))).length
      ∧ (cleanupExpiredCache s now).2.cache_metadata =
        s.cache_metadata.filter
          (fun e => !entryExpired (now - (s.config.cache_max_age_hours : Int) * 3600) e)
      ∧ (cleanupExpiredCache s now).2.tables =
        s.tables.filter
          (fun t =>
            (s.cache_metadata.filter
              (entryExpired (now - (s.config.cache_max_age_hours : Int) * 3600))).all
                (fun e => decide (t ≠ splitFirstDot e.table_name)))
      ∧ (cleanupExpiredCache s now).2.queries = s.queries
      ∧ (cleanupExpiredCache s now).2.query_metadata = s.query_metadata
      ∧ (cleanupExpiredCache s now).2.config = s.config := by
  have hfold := foldl_cleanupStep
    (s.cache_metadata.filter
      (entryExpired (now - (s.config.cache_max_age_hours : Int) * 3600))) 0 s
  unfold cleanupExpiredCache
  rw [hfold]
  refine ⟨by simp, ?_, rfl, rfl, rfl, rfl⟩
  show s.cache_metadata.filter _ = s.cache_metadata.filter _
  apply List.filter_congr
  intro r hr
  by_cases hexp : entryExpired (now - (s.config.cache_max_age_hours : Int) * 3600) r = true
  · simp [hexp]
    exact ⟨r, hr, hexp, rfl⟩
  · simp [hexp]
    intro x hx
    by_cases hxe : entryExpired (now - (s.config.cache_max_age_hours : Int) * 3600) x = true
    · right
      intro hkeq
      exact hexp (by
        rw [hashUnique_eq_of_key_eq CacheEntry.query_hash s.cache_metadata hu r x hr hx hkeq]
        exact hxe)
    · left
      simpa using hxe

/-- C4 witness: in `staleState` at time 20000 the single entry (expiry 9999,
cutoff 16400) is removed, and the count is 1. -/
theorem cleanup_expired_cache_spec_witness :
    (cleanupExpiredCache staleState 20000).1 =
        (staleState.cache_metadata.filter
          (entryExpired (20000 - (staleState.config.cache_max_age_hours : Int) * 3600))).length
      ∧ (cleanupExpiredCache staleState 20000).2.cache_metadata =
        staleState.cache_metadata.filter
          (fun e =>
            !entryExpired (20000 - (staleState.config.cache_max_age_hours : Int) * 3600) e) :=
  ⟨(cleanup_expired_cache_spec staleState 20000 (by decide)).1,
   (cleanup_expired_cache_spec staleState 20000 (by decide)).2.1⟩

/-! ## C7: per-fingerprint row uniqueness -/

/-- Filtering preserves key uniqueness. -/
theorem hashUnique_filter {α : Type} (key : α → String) (p : α → Bool) (l : List α)
    (h : hashUnique key l) : hashUnique key (l.filter p) :=
  List.Pairwise.sublist (List.filter_sublist l) h

/-- The delete-then-insert replace pattern preserves key uniqueness. -/
theorem hashUnique_replace {α : Type} (key : α → String) (h : String) (l : List α)
    (x : α) (hx : key x = h) (hl : hashUnique key l) :
    hashUnique key ((l.filter fun r => key r != h) ++ [x]) := by
  rw [hashUnique, List.pairwise_append]
  refine ⟨hashUnique_filter key _ l hl, List.pairwise_singleton _ _, ?_⟩
  intro a ha b hb
  have hmem := List.mem_filter.mp ha
  have hbx : b = x := by simpa using hb
  rw [hbx, hx]
  simpa using hmem.2

/-- A key-preserving row update (SQL `UPDATE`) preserves key uniqueness. -/
theorem hashUnique_map_key {α : Type} (key : α → String) (f : α → α)
    (hf : ∀ a, key (f a) = key a) (l : List α) (h : hashUnique key l) :
    hashUnique key (l.map f) := by
  rw [hashUnique, List.pairwise_map]
  exact h.imp fun hab => by rw [hf, hf]; exact hab

/-- Every single cache operation preserves the row-uniqueness invariant. -/
theorem stateInv_step (s : ManagerState) (op : CacheOp) (h : StateInv s) :
    StateInv (CacheOp.step s op) := by
  cases op with
  | create now q rc et uid fc =>
    exact ⟨hashUnique_replace QueryRecord.query_hash (generate_normalized_query_hash q)
        s.queries _ rfl h.1,
      hashUnique_replace CacheEntry.query_hash (generate_normalized_query_hash q)
        s.cache_metadata _ rfl h.2⟩
  | lookup now q =>
    have halt : (getCachedTableName s now q).2 = s ∨
        (getCachedTableName s now q).2 =
          updateCacheUsage s now (generate_normalized_query_hash q) := by
      unfold getCachedTableName
      cases h1 : tableExists s (schemaName ++ "." ++ generate_normalized_query_hash q) <;>
        cases h2 : isCacheFresh s now (generate_normalized_query_hash q) <;>
          simp [h1, h2]
    show StateInv (getCachedTableName s now q).2
    rcases halt with he | he <;> rw [he]
    · exact h
    · exact ⟨hashUnique_map_key QueryRecord.query_hash _
        (fun a => by
          by_cases hc : (a.query_hash == generate_normalized_query_hash q) = true <;>
            simp [hc]) s.queries h.1, h.2⟩
  | cleanup now =>
    have hfold := foldl_cleanupStep
      (s.cache_metadata.filter
        (entryExpired (now - (s.config.cache_max_age_hours : Int) * 3600))) 0 s
    show StateInv ((s.cache_metadata.filter
      (entryExpired (now - (s.config.cache_max_age_hours : Int) * 3600))).foldl
        cleanupStep (0, s)).2
    rw [hfold]
    exact ⟨h.1, hashUnique_filter _ _ _ h.2⟩
  | clearAll => exact ⟨h.1, List.Pairwise.nil⟩
  | clearOne k =>
    cases k with
    | none => exact ⟨h.1, List.Pairwise.nil⟩
    | some key =>
      by_cases hk : key.length = 0
      · have he : (clear_cache s (some key)).2 = (clearAllCache s).2 := by
          simp [clear_cache, hk]
        show StateInv (clear_cache s (some key)).2
        rw [he]
        exact ⟨h.1, List.Pairwise.nil⟩
      · have he : (clear_cache s (some key)).2 = s := by simp [clear_cache, hk]
        show StateInv (clear_cache s (some key)).2
        rw [he]
        exact h
  | clearByHash hq => exact ⟨h.1, hashUnique_filter _ _ _ h.2⟩

/-- C7: after any sequence of cache operations from a fresh catalog — writes,
hits, cleanup, clears — there is at most one `snowducks_queries` row and at
most one `snowducks_cache_metadata` row per fingerprint: a write for an
existing fingerprint replaces the prior rows rather than duplicating them. -/
theorem run_ops_row_unique (cfg : SnowDucksConfig) (ops : List CacheOp) :
    StateInv (runOps cfg ops) := by
  suffices hgen : ∀ (l : List CacheOp) (s : ManagerState), StateInv s →
      StateInv (l.foldl CacheOp.step s) from
    hgen ops (initState cfg) ⟨List.Pairwise.nil, List.Pairwise.nil⟩
  intro l
  induction l with
  | nil => intro s hs; exact hs
  | cons op tl ih => intro s hs; exact ih _ (stateInv_step s op hs)

/-! ## C2: fingerprint stability — tokenization lemmas -/

/-- The fuel of `pySplitGo` is irrelevant once it bounds the input length. -/
theorem pySplitGo_irrel : ∀ (f1 : Nat) (l : List Char) (f2 : Nat),
    l.length ≤ f1 → l.length ≤ f2 → pySplitGo f1 l = pySplitGo f2 l := by
  intro f1
  induction f1 with
  | zero =>
    intro l f2 h1 _
    have hl : l = [] := List.eq_nil_of_length_eq_zero (Nat.le_zero.mp h1)
    subst hl
    cases f2 <;> rfl
  | succ f ih =>
    intro l f2 h1 h2
    cases l with
    | nil => cases f2 <;> rfl
    | cons c t =>
      cases f2 with
      | zero => simp at h2
      | succ g =>
        simp only [pySplitGo]
        cases hc : pyWs c with
        | true =>
          simp only [if_true]
          exact ih t g (by simpa using h1) (by simpa using h2)
        | false =>
          simp only [Bool.false_eq_true, if_false]
          congr 1
          exact ih _ g
            ((List.Sublist.length_le (List.dropWhile_sublist _)).trans (by simpa using h1))
            ((List.Sublist.length_le (List.dropWhile_sublist _)).trans (by simpa using h2))

/-- Unfolding: splitting skips a leading whitespace character. -/
theorem pySplitChars_cons_ws (c : Char) (t : List Char) (hc : pyWs c = true) :
    pySplitChars (c :: t) = pySplitChars t := by
  show pySplitGo (t.length + 1) (c :: t) = _
  simp only [pySplitGo, hc, if_true]
  rfl

/-- Unfolding: a leading non-whitespace character starts a token. -/
theorem pySplitChars_cons_not_ws (c : Char) (t : List Char) (hc : pyWs c = false) :
    pySplitChars (c :: t) = (c :: t.takeWhile fun d => !pyWs d) ::
      pySplitChars (t.dropWhile fun d => !pyWs d) := by
  show pySplitGo (t.length + 1) (c :: t) = _
  simp only [pySplitGo, hc, Bool.false_eq_true, if_false]
  congr 1
  exact pySplitGo_irrel t.length _ _
    (List.Sublist.length_le (List.dropWhile_sublist _)) le_rfl

/-- A whitespace-only string has no tokens. -/
theorem tokens_all_ws (w : List Char) (hw : ∀ c ∈ w, pyWs c = true) :
    pySplitChars w = [] := by
  induction w with
  | nil => rfl
  | cons c t ih =>
    rw [pySplitChars_cons_ws c t (hw c (by simp))]
    exact ih fun d hd => hw d (by simp [hd])

/-- A leading whitespace run does not change the token list. -/
theorem tokens_ws_append (w t : List Char) (hw : ∀ c ∈ w, pyWs c = true) :
    pySplitChars (w ++ t) = pySplitChars t := by
  induction w with
  | nil => rfl
  | cons c w' ih =>
    rw [List.cons_append, pySplitChars_cons_ws c _ (hw c (by simp))]
    exact ih fun d hd => hw d (by simp [hd])

/-- A trailing whitespace run is invisible to `takeWhile` over non-whitespace. -/
theorem takeWhile_append_ws (w : List Char) (hw : ∀ c ∈ w, pyWs c = true)
    (m : List Char) :
    (m ++ w).takeWhile (fun d => !pyWs d) = m.takeWhile fun d => !pyWs d := by
  induction m with
  | nil =>
    cases w with
    | nil => rfl
    | cons d w' => simp [List.takeWhile_cons, hw d (by simp)]
  | cons c m' ih =>
    by_cases hc : pyWs c
    · simp [List.takeWhile_cons, hc]
    · simp [List.takeWhile_cons, hc, ih]

/-- Helper: `dropWhile` over non-whitespace keeps a trailing whitespace run intact. -/
theorem dropWhile_append_ws (w : List Char) (hw : ∀ c ∈ w, pyWs c = true)
    (m : List Char) :
    (m ++ w).dropWhile (fun d => !pyWs d) = (m.dropWhile fun d => !pyWs d) ++ w := by
  induction m with
  | nil =>
    cases w with
    | nil => rfl
    | cons d w' => simp [List.dropWhile_cons, hw d (by simp)]
  | cons c m' ih =>
    by_cases hc : pyWs c
    · simp [List.dropWhile_cons, hc]
    · simp [List.dropWhile_cons, hc, ih]

/-- A trailing whitespace run does not change the token list. -/
theorem tokens_append_ws : ∀ (n : Nat) (m w : List Char), m.length ≤ n →
    (∀ c ∈ w, pyWs c = true) → pySplitChars (m ++ w) = pySplitChars m := by
  intro n
  induction n with
  | zero =>
    intro m w hm hw
    have hnil : m = [] := List.eq_nil_of_length_eq_zero (Nat.le_zero.mp hm)
    subst hnil
    simpa using tokens_all_ws w hw
  | succ n ih =>
    intro m w hm hw
    cases m with
    | nil => simpa using tokens_all_ws w hw
    | cons c m' =>
      by_cases hc : pyWs c
      · rw [List.cons_append, pySplitChars_cons_ws c _ hc, pySplitChars_cons_ws c m' hc]
        exact ih m' w (by simpa using hm) hw
      · have hcf : pyWs c = false := by simpa using hc
        rw [List.cons_append, pySplitChars_cons_not_ws c _ hcf,
          pySplitChars_cons_not_ws c m' hcf]
        rw [takeWhile_append_ws w hw m', dropWhile_append_ws w hw m']
        congr 1
        exact ih _ w
          ((List.Sublist.length_le (List.dropWhile_sublist _)).trans (by simpa using hm)) hw

/-- Python's redundant `strip()` before `split()` does not change the tokens. -/
theorem tokens_strip (l : List Char) : pySplitChars (pyStrip l) = pySplitChars l := by
  have h1 : pySplitChars (l.dropWhile pyWs) = pySplitChars l := by
    conv_rhs => rw [← List.takeWhile_append_dropWhile pyWs l]
    exact (tokens_ws_append _ _ fun c hc => List.mem_takeWhile_imp hc).symm
  have h2 : l.dropWhile pyWs =
      pyStrip l ++ ((l.dropWhile pyWs).reverse.takeWhile pyWs).reverse := by
    show l.dropWhile pyWs = stripBy pyWs l ++ _
    unfold stripBy
    conv_lhs => rw [← List.reverse_reverse (l.dropWhile pyWs),
      ← List.takeWhile_append_dropWhile pyWs (l.dropWhile pyWs).reverse]
    rw [List.reverse_append]
  rw [← h1, h2]
  exact (tokens_append_ws (pyStrip l).length _ _ le_rfl
    fun c hc => List.mem_takeWhile_imp (List.mem_reverse.mp hc)).symm

/-- Related strings are empty together, and their heads agree on being
whitespace. -/
theorem wsEquiv_head {l1 l2 : List Char} (h : WsCaseEquiv l1 l2) :
    (l1 = [] ↔ l2 = []) ∧
      ∀ c1 t1 c2 t2, l1 = c1 :: t1 → l2 = c2 :: t2 → pyWs c1 = pyWs c2 := by
  induction h with
  | nil => exact ⟨iff_of_true rfl rfl, by intro _ _ _ _ hx _; cases hx⟩
  | char hc1 hc2 _ _ _ =>
    refine ⟨iff_of_false (by simp) (by simp), ?_⟩
    intro a ta b tb ha hb
    injection ha with ha1 _
    injection hb with hb1 _
    rw [← ha1, ← hb1, hc1, hc2]
  | ws hw1ne hw2ne hws1 hws2 _ _ =>
    rename_i w1 w2 t1 t2
    obtain ⟨d1, w1', rfl⟩ := List.exists_cons_of_ne_nil hw1ne
    obtain ⟨d2, w2', rfl⟩ := List.exists_cons_of_ne_nil hw2ne
    refine ⟨iff_of_false (by simp) (by simp), ?_⟩
    intro a ta b tb ha hb
    rw [List.cons_append] at ha hb
    injection ha with ha1 _
    injection hb with hb1 _
    rw [← ha1, ← hb1, hws1 d1 (by simp), hws2 d2 (by simp)]

/-- Core of C2: strings equal up to whitespace run-lengths and case have the
same token lists after lowercasing. -/
theorem wsEquiv_tokensLower {l1 l2 : List Char} (h : WsCaseEquiv l1 l2) :
    (pySplitChars l1).map pyLower = (pySplitChars l2).map pyLower := by
  induction h with
  | nil => rfl
  | char hc1 hc2 hlow hrec ih =>
    rename_i c1 c2 t1 t2
    rw [pySplitChars_cons_not_ws c1 t1 hc1, pySplitChars_cons_not_ws c2 t2 hc2]
    cases t1 with
    | nil =>
      have ht2 : t2 = [] := (wsEquiv_head hrec).1.mp rfl
      subst ht2
      simp [pyLower, hlow]
    | cons d1 t1' =>
      have hne2 : t2 ≠ [] := by
        intro h2
        have := (wsEquiv_head hrec).1.mpr h2
        simp at this
      obtain ⟨d2, t2', rfl⟩ := List.exists_cons_of_ne_nil hne2
      have hdws : pyWs d1 = pyWs d2 := (wsEquiv_head hrec).2 d1 t1' d2 t2' rfl rfl
      cases hd : pyWs d1 with
      | true =>
        have hd2 : pyWs d2 = true := by rw [← hdws]; exact hd
        simp only [List.takeWhile_cons, List.dropWhile_cons, hd, hd2, Bool.not_true,
          Bool.false_eq_true, if_false]
        simp only [List.map_cons, pyLower, List.map_nil]
        rw [hlow]
        exact congrArg _ ih
      | false =>
        have hd2 : pyWs d2 = false := by rw [← hdws]; exact hd
        rw [pySplitChars_cons_not_ws d1 t1' hd, pySplitChars_cons_not_ws d2 t2' hd2] at ih
        simp only [List.map_cons] at ih
        injection ih with ih1 ih2
        simp only [List.takeWhile_cons, List.dropWhile_cons, hd, hd2, Bool.not_false, if_true]
        simp only [List.map_cons, pyLower, List.map_cons] at ih1 ⊢
        rw [hlow]
        exact congrArg₂ _ (congrArg _ ih1) ih2
  | ws hw1ne hw2ne hws1 hws2 hrec ih =>
    rename_i w1 w2 t1 t2
    rw [tokens_ws_append w1 t1 hws1, tokens_ws_append w2 t2 hws2]
    exact ih

/-- Lowercasing commutes with joining tokens by single spaces. -/
theorem joinSpace_lower (ts : List (List Char)) :
    pyLower (joinSpace ts) = joinSpace (ts.map pyLower) := by
  induction ts with
  | nil => rfl
  | cons t rest ih =>
    cases rest with
    | nil => rfl
    | cons t2 r2 =>
      show pyLower (t ++ ' ' :: joinSpace (t2 :: r2)) = _
      rw [pyLower, List.map_append]
      show pyLower t ++ pyLower (' ' :: joinSpace (t2 :: r2)) = _
      rw [pyLower, List.map_cons]
      show pyLower t ++ ' '.toLower :: pyLower (joinSpace (t2 :: r2)) = _
      rw [ih]
      rfl

/-- C2 amended: queries that differ only in whitespace run-lengths and letter
case share a normalized fingerprint. (The claim's trailing-semicolon clause is
dropped: normalization does not strip semicolons, see the counterexample.) -/
theorem normalized_hash_ws_case_invariant (q1 q2 : String)
    (h : WsCaseEquiv q1.data q2.data) :
    generate_normalized_query_hash q1 = generate_normalized_query_hash q2 := by
  unfold generate_normalized_query_hash normalize_query_text
  rw [tokens_strip q1.data, tokens_strip q2.data, joinSpace_lower, joinSpace_lower,
    wsEquiv_tokensLower h]

/-- C2 witness: `"SELECT  1"` and `"select 1"` differ only in case and one
whitespace run-length, and indeed share a fingerprint. -/
theorem normalized_hash_ws_case_invariant_witness :
    WsCaseEquiv ("SELECT  1").data ("select 1").data ∧
      generate_normalized_query_hash "SELECT  1" =
        generate_normalized_query_hash "select 1" := by
  have hd : WsCaseEquiv ("SELECT  1").data ("select 1").data := by
    show WsCaseEquiv ['S', 'E', 'L', 'E', 'C', 'T', ' ', ' ', '1']
      ['s', 'e', 'l', 'e', 'c', 't', ' ', '1']
    refine .char (by decide) (by decide) (by decide) ?_
    refine .char (by decide) (by decide) (by decide) ?_
    refine .char (by decide) (by decide) (by decide) ?_
    refine .char (by decide) (by decide) (by decide) ?_
    refine .char (by decide) (by decide) (by decide) ?_
    refine .char (by decide) (by decide) (by decide) ?_
    show WsCaseEquiv ([' ', ' '] ++ ['1']) ([' '] ++ ['1'])
    refine .ws (by decide) (by decide) (by decide) (by decide) ?_
    exact .char (by decide) (by decide) (by decide) .nil
  exact ⟨hd, normalized_hash_ws_case_invariant _ _ hd⟩

/-! ## C6: characterization of the single-statement guard -/

/-- Helper: `dropWhile` cannot remove a character that fails the predicate. -/
theorem mem_dropWhile_iff_of_false {p : Char → Bool} {c : Char} (hc : p c = false)
    (l : List Char) : c ∈ l.dropWhile p ↔ c ∈ l := by
  induction l with
  | nil => simp
  | cons a t ih =>
    cases ha : p a with
    | true =>
      have hca : c ≠ a := fun he => by rw [he, ha] at hc; cases hc
      simp [List.dropWhile_cons, ha, ih, List.mem_cons, hca]
    | false => simp [List.dropWhile_cons, ha]

/-- Embedding of `strip()` cannot remove a non-whitespace character. -/
theorem mem_pyStrip_iff (c : Char) (hc : pyWs c = false) (l : List Char) :
    c ∈ pyStrip l ↔ c ∈ l := by
  unfold pyStrip stripBy
  rw [List.mem_reverse, mem_dropWhile_iff_of_false hc, List.mem_reverse,
    mem_dropWhile_iff_of_false hc]

/-- Appending one more trailing semicolon keeps the trailing-run property. -/
theorem trailing_append_semi (m : List Char) :
    trailingSemisOnly (m ++ [';']) = trailingSemisOnly m := by
  induction m with
  | nil => decide
  | cons a m' ih =>
    by_cases ha : a = ';'
    · subst ha
      simp [trailingSemisOnly, List.dropWhile_cons, List.all_append]
    · simp [trailingSemisOnly, List.dropWhile_cons, ha] at ih ⊢
      exact ih

/-- If the final character is not a semicolon, the trailing-run property means
there is no semicolon at all. -/
theorem trailing_append_nonsemi (a : Char) (ha : a ≠ ';') (m : List Char) :
    trailingSemisOnly (m ++ [a]) = true ↔ ';' ∉ m := by
  induction m with
  | nil => simp [trailingSemisOnly, List.dropWhile_cons, ha]
  | cons c m' ih =>
    by_cases hc : c = ';'
    · subst hc
      simp [trailingSemisOnly, List.dropWhile_cons, List.all_append, ha]
    · have hc' : ';' ≠ c := fun he => hc he.symm
      simp only [trailingSemisOnly, List.cons_append, List.dropWhile_cons, hc,
        decide_not, decide_eq_true_eq] at ih ⊢
      rw [if_pos (by simp [hc])]
      rw [ih]
      simp [List.mem_cons, hc']

/-- Stripping the leading run of semicolons from the reversed string leaves no
semicolon exactly when every semicolon of the string lies in its trailing run. -/
theorem dropWhile_semi_trailing : ∀ r : List Char,
    (';' ∉ r.dropWhile fun c => c = ';') ↔ trailingSemisOnly r.reverse = true := by
  intro r
  induction r with
  | nil => simp [trailingSemisOnly]
  | cons a r' ih =>
    by_cases ha : a = ';'
    · subst ha
      rw [List.reverse_cons, trailing_append_semi]
      simpa [List.dropWhile_cons] using ih
    · rw [List.reverse_cons, trailing_append_nonsemi a ha]
      have ha' : ';' ≠ a := fun he => ha he.symm
      simp [List.dropWhile_cons, ha, List.mem_cons, ha', List.mem_reverse]

/-- C6 amended: the validator accepts exactly when, after removing line and
block comments, collapsing whitespace and blanking quoted literals, every
remaining semicolon lies in one trailing run of consecutive semicolons —
`rstrip(";")` strips the whole trailing run, not just a single trailing
separator. -/
theorem validate_single_query_iff_trailing_run (q : String) :
    validate_single_query q = true ↔ trailingSemisOnly (cleanedQuery q) = true := by
  have hsemi_ws : pyWs ';' = false := by decide
  constructor
  · intro hv
    have hcf : (pyStrip (pyRstripChar ';' (cleanedQuery q))).contains ';' = false := by
      unfold validate_single_query at hv
      simpa using hv
    have hnm : ';' ∉ pyStrip (pyRstripChar ';' (cleanedQuery q)) := by
      intro hm
      have hct : (pyStrip (pyRstripChar ';' (cleanedQuery q))).contains ';' = true :=
        List.elem_iff.mpr hm
      rw [hcf] at hct
      cases hct
    have hnx : ';' ∉ pyRstripChar ';' (cleanedQuery q) := fun hx =>
      hnm ((mem_pyStrip_iff ';' hsemi_ws _).mpr hx)
    have hnd : ';' ∉ (cleanedQuery q).reverse.dropWhile (fun c => c = ';') := fun hd =>
      hnx (List.mem_reverse.mpr hd)
    have hres := (dropWhile_semi_trailing (cleanedQuery q).reverse).mp hnd
    rwa [List.reverse_reverse] at hres
  · intro ht
    have hnd : ';' ∉ (cleanedQuery q).reverse.dropWhile (fun c => c = ';') :=
      (dropWhile_semi_trailing _).mpr (by rwa [List.reverse_reverse])
    have hnx : ';' ∉ pyRstripChar ';' (cleanedQuery q) := fun hx =>
      hnd (List.mem_reverse.mp hx)
    have hnm : ';' ∉ pyStrip (pyRstripChar ';' (cleanedQuery q)) := fun hm =>
      hnx ((mem_pyStrip_iff ';' hsemi_ws _).mp hm)
    have hcf : (pyStrip (pyRstripChar ';' (cleanedQuery q))).contains ';' = false := by
      cases hc : (pyStrip (pyRstripChar ';' (cleanedQuery q))).contains ';' with
      | false => rfl
      | true => exact absurd (List.elem_iff.mp hc) hnm
    unfold validate_single_query
    simp only [Bool.not_eq_true']
    exact hcf
